import Mathlib

/-!
Shallow embedding of the notebook `1) Data Merging.ipynb`: a one-pass ETL
pipeline that filters household electricity consumption and tariff tables to
calendar year 2013, melts the wide consumption table, removes households with
more than 5% missing half-hourly readings, imputes the remaining nulls,
aggregates both series to hourly buckets and left-joins them; and, separately,
concatenates several hourly weather files, removes duplicate timestamps
keeping the first occurrence, and patches the daylight-saving gap by averaging
the bracketing hours.

Timestamps are modelled as integer minutes since 2013-01-01 00:00 GMT, null
values as `Option`, and all prices/readings as exact rationals.
-/

attribute [local semireducible] Rat.add Rat.sub Rat.mul Rat.inv Rat.ofScientific

namespace DataMerging

/-- Timestamps: minutes since 2013-01-01 00:00 GMT, as integers.  Half-hourly
readings sit at multiples of 30, hourly weather rows at multiples of 60. -/
abbrev TS := Int

/-- Minutes in calendar year 2013 (365 days; 2013 is not a leap year). -/
def minutesIn2013 : TS := 525600

/-- The notebook's `GMT.dt.year == 2013` test, in the minute model: the
timestamp lies inside calendar year 2013. -/
def inYear2013 (t : TS) : Bool := decide (0 ≤ t) && decide (t < minutesIn2013)

/-- The pandas `.floor('H')` operation: round a timestamp down to its hour. -/
def floorHour (t : TS) : TS := 60 * (t / 60)

/-- A raw tariff row `(GMT, Price)` of `tariff_d.csv`. -/
abbrev TariffRow := TS × ℚ

/-- A raw wide-format consumption row of `consumption_d.csv`: the `GMT`
timestamp followed by one nullable reading per household column. -/
abbrev WideRow := TS × List (Option ℚ)

/-- A melted consumption row `(GMT, household_id, consumption)`. -/
abbrev CRow := TS × String × Option ℚ

/-- Cell 3: `tariff_data[tariff_data['GMT'].dt.year == 2013]`. -/
def tariffFiltered (tariff : List TariffRow) : List TariffRow :=
  tariff.filter fun r => inYear2013 r.1

/-- Cell 3: keep consumption rows of 2013 and additionally drop the row at
exactly `2013-01-01 00:00:00`, i.e. timestamp 0 in the minute model. -/
def consFiltered (rows : List WideRow) : List WideRow :=
  rows.filter fun r => inYear2013 r.1 && decide (r.1 ≠ 0)

/-- Cell 5: `consumption_data_filtered.melt(id_vars=['GMT'], ...)`: one output
block per household column, in column order, each block holding that
household's value for every filtered row. -/
def melt (ids : List String) (rows : List WideRow) : List CRow :=
  ids.enum.flatMap fun jh =>
    rows.filterMap fun r => (r.2[jh.1]?).map fun v => (r.1, jh.2, v)

/-- The melted, year-filtered consumption table (`consumption_melted`). -/
def consumptionMelted (ids : List String) (rows : List WideRow) : List CRow :=
  melt ids (consFiltered rows)

/-- Left-to-right scan behind `dedupBy`: drop every element whose key was
already seen, which is exactly pandas marking `duplicated(keep='first')`. -/
def dedupByAux {α κ : Type} [DecidableEq κ] (key : α → κ) (seen : List κ) :
    List α → List α
  | [] => []
  | x :: xs =>
      if key x ∈ seen then dedupByAux key seen xs
      else x :: dedupByAux key (key x :: seen) xs

/-- First-occurrence deduplication by a key: the semantics of pandas
`index.duplicated(keep='first')`, and of a table's set of group keys. -/
def dedupBy {α κ : Type} [DecidableEq κ] (key : α → κ) (l : List α) : List α :=
  dedupByAux key [] l

/-- Number of melted rows of household `h`: the `groupby('household_id')`
group size, the denominator of the missing-value percentage. -/
def sizeOfH (melted : List CRow) (h : String) : Nat :=
  (melted.filter fun r => decide (r.2.1 = h)).length

/-- Number of melted rows of household `h` whose reading is null. -/
def missingOfH (melted : List CRow) (h : String) : Nat :=
  (melted.filter fun r => decide (r.2.1 = h) && decide (r.2.2 = none)).length

/-- Cell 5: `percentage_missing = missing_values / size * 100`, in exact
rational arithmetic. -/
def pctMissing (melted : List CRow) (h : String) : ℚ :=
  (missingOfH melted h : ℚ) / (sizeOfH melted h : ℚ) * 100

/-- Distinct household ids of the melted table (`all_households.index`). -/
def householdIds (melted : List CRow) : List String :=
  dedupBy id (melted.map fun r => r.2.1)

/-- Cell 5: `households_to_remove`, the ids whose missing percentage exceeds
5. -/
def householdsToRemove (melted : List CRow) : List String :=
  (householdIds melted).filter fun h => decide (5 < pctMissing melted h)

/-- Cell 5: `consumption_melted_filtered`, the melted table without the rows
of the removed households. -/
def meltedFiltered (ids : List String) (rows : List WideRow) : List CRow :=
  (consumptionMelted ids rows).filter fun r =>
    decide (r.2.1 ∉ householdsToRemove (consumptionMelted ids rows))

/-- The series of one household, in table order, as
`groupby('household_id')` sees it. -/
def seriesOf (tbl : List CRow) (h : String) : List (TS × Option ℚ) :=
  (tbl.filter fun r => decide (r.2.1 = h)).map fun r => (r.1, r.2.2)

/-- Latest known (timestamp, value) anchor of a series prefix. -/
def lastKnown (s : List (TS × Option ℚ)) : Option (TS × ℚ) :=
  s.foldl (fun acc p => match p.2 with | some v => some (p.1, v) | none => acc) none

/-- Earliest known (timestamp, value) anchor of a series suffix. -/
def firstKnown (s : List (TS × Option ℚ)) : Option (TS × ℚ) :=
  s.findSome? fun p => p.2.map fun v => (p.1, v)

/-- Value filled into a null at time `t`: time-weighted interpolation between
the bracketing anchors (`interpolate(method='time')`), the preceding anchor
when only it exists (the forward fill), the following anchor when only it
exists (the backward fill), and still null when the series holds no known
value at all. -/
def fillValue (before after : Option (TS × ℚ)) (t : TS) : Option ℚ :=
  match before, after with
  | some (t0, v0), some (t1, v1) =>
      some (v0 + (v1 - v0) * (((t - t0 : ℤ) : ℚ) / ((t1 - t0 : ℤ) : ℚ)))
  | some (_, v0), none => some v0
  | none, some (_, v1) => some v1
  | none, none => none

/-- Cell 7's per-household transform
`x.interpolate(method='time').ffill().bfill()`: known values are kept, nulls
are filled from the bracketing anchors. -/
def imputeSeries (s : List (TS × Option ℚ)) : List (TS × Option ℚ) :=
  s.enum.map fun kp =>
    match kp.2.2 with
    | some q => (kp.2.1, some q)
    | none =>
        (kp.2.1,
          fillValue (lastKnown (s.take kp.1)) (firstKnown (s.drop (kp.1 + 1))) kp.2.1)

/-- Position of row `i` inside its household's group: how many earlier rows
share its household.  Aligns groupby-transform output back onto the table. -/
def countBefore (tbl : List CRow) (i : Nat) (h : String) : Nat :=
  ((tbl.take i).filter fun r => decide (r.2.1 = h)).length

/-- Cell 7: `consumption_imputed`, the filtered table with every household's
series replaced positionally by its imputed series. -/
def consumptionImputed (ids : List String) (rows : List WideRow) : List CRow :=
  (meltedFiltered ids rows).enum.map fun ir =>
    (ir.2.1, ir.2.2.1,
      ((imputeSeries (seriesOf (meltedFiltered ids rows) ir.2.2.1))[countBefore
          (meltedFiltered ids rows) ir.1 ir.2.2.1]?).bind Prod.snd)

/-- Cell 9: the imputed rows rewritten as `(hour, household, value)` with
`hour = (GMT + 30 minutes).floor('H')`. -/
def consumptionWithHour (ids : List String) (rows : List WideRow) :
    List (TS × String × Option ℚ) :=
  (consumptionImputed ids rows).map fun r => (floorHour (r.1 + 30), r.2.1, r.2.2)

/-- Sum of the non-null values of a column, the semantics of pandas
`groupby(...).sum()` (nulls are skipped). -/
def sumKnown (l : List (Option ℚ)) : ℚ := (l.filterMap id).sum

/-- Cell 9: `consumption_hourly`, one row per distinct (hour, household) pair
holding the summed consumption of that bucket. -/
def consumptionHourly (ids : List String) (rows : List WideRow) :
    List (TS × String × ℚ) :=
  (dedupBy id ((consumptionWithHour ids rows).map fun r => (r.1, r.2.1))).map fun k =>
    (k.1, k.2,
      sumKnown (((consumptionWithHour ids rows).filter fun r =>
        decide ((r.1, r.2.1) = k)).map fun r => r.2.2))

/-- The hour-bucketed filtered tariff rows `(hour, price)`. -/
def tariffWithHour (tariff : List TariffRow) : List (TS × ℚ) :=
  (tariffFiltered tariff).map fun r => (floorHour (r.1 + 30), r.2)

/-- Arithmetic mean of a list of rationals. -/
def meanQ (l : List ℚ) : ℚ := l.sum / (l.length : ℚ)

/-- Cell 9: `tariff_hourly`, the mean price per distinct hour. -/
def tariffHourly (tariff : List TariffRow) : List (TS × ℚ) :=
  (dedupBy id ((tariffWithHour tariff).map Prod.fst)).map fun hr =>
    (hr, meanQ (((tariffWithHour tariff).filter fun r => decide (r.1 = hr)).map Prod.snd))

/-- A merged output row `(timestamp, household_id, consumption, tariff)`; the
tariff is null when the hour never occurs in the filtered tariff table. -/
abbrev MRow := TS × String × ℚ × Option ℚ

/-- Cell 9: `pd.merge(consumption_hourly, tariff_hourly, on='hour',
how='left')`: each left row paired with every matching right row, or kept once
with a null tariff when no right row matches. -/
def leftJoin (left : List (TS × String × ℚ)) (right : List (TS × ℚ)) : List MRow :=
  left.flatMap fun l =>
    match right.filter fun r => decide (r.1 = l.1) with
    | [] => [(l.1, l.2.1, l.2.2, none)]
    | ms => ms.map fun m => (l.1, l.2.1, l.2.2, some m.2)

/-- Row order of cell 9's `sort_values(by=['timestamp', 'household_id'])`. -/
def mergedLe (a b : MRow) : Prop := a.1 < b.1 ∨ (a.1 = b.1 ∧ a.2.1 ≤ b.2.1)

instance : DecidableRel mergedLe := fun a b => by
  unfold mergedLe; infer_instance

/-- Cell 9: the final sorted `merged_data` table. -/
def mergedData (ids : List String) (rows : List WideRow) (tariff : List TariffRow) :
    List MRow :=
  List.insertionSort mergedLe (leftJoin (consumptionHourly ids rows) (tariffHourly tariff))

/-- The five retained weather measurement columns. -/
structure WObs where
  solarradiation : ℚ
  windspeed : ℚ
  temp : ℚ
  precip : ℚ
  humidity : ℚ
deriving DecidableEq

/-- One weather row: the `datetime` index value plus the measurements. -/
abbrev WRow := TS × WObs

/-- Row order of `sort_index()` on the weather frame. -/
def wLe (a b : WRow) : Prop := a.1 ≤ b.1

instance : DecidableRel wLe := fun a b => by
  unfold wLe; infer_instance

/-- Cell 12: `pd.concat(df_list)`, the source files in order. -/
def weatherConcat (sources : List (List WRow)) : List WRow := sources.flatten

/-- Cell 12: `merged_df.sort_index()`.  pandas' default sort kind is an
unstable quicksort, so the code only guarantees *some* timestamp-sorted
rearrangement of the concatenation (`SortIndexResult` below); which of
several rows sharing a timestamp comes first is unspecified.  This definition
fixes one admissible outcome (an insertion sort) and is used by the claims
whose statements do not depend on how equal timestamps are ordered. -/
def weatherSorted (sources : List (List WRow)) : List WRow :=
  List.insertionSort wLe (weatherConcat sources)

/-- Everything `sort_index()` with the default unstable kind guarantees about
its output: it is a rearrangement of the input rows, sorted by timestamp.
Properties of the duplicate-removal step that are sensitive to the order of
equal timestamps must hold for every list satisfying this contract, not just
for `weatherSorted`. -/
def SortIndexResult (l out : List WRow) : Prop :=
  out.Perm l ∧ List.Sorted wLe out

/-- Cell 14: `merged_df[~merged_df.index.duplicated(keep='first')]`. -/
def weatherDedup (sources : List (List WRow)) : List WRow :=
  dedupBy Prod.fst (weatherSorted sources)

/-- Consecutive pairs of a list; their timestamp differences are the
`diff()` deltas between successive index entries. -/
def adjPairs {α : Type} (l : List α) : List (α × α) := l.zip l.tail

/-- Cell 14: `unusual_entries`, the successive row pairs whose timestamp delta
is not one hour. -/
def unusualPairs (sources : List (List WRow)) : List (WRow × WRow) :=
  (adjPairs (weatherDedup sources)).filter fun p => decide (p.2.1 - p.1.1 ≠ 60)

/-- Columnwise mean of two weather rows, cell 14's
`combine(..., lambda x, y: (x + y) / 2)`. -/
def avgObs (x y : WObs) : WObs where
  solarradiation := (x.solarradiation + y.solarradiation) / 2
  windspeed := (x.windspeed + y.windspeed) / 2
  temp := (x.temp + y.temp) / 2
  precip := (x.precip + y.precip) / 2
  humidity := (x.humidity + y.humidity) / 2

/-- Cell 14's loop: a two-hour delta synthesises the missing intermediate hour
from the two bracketing rows; any other unusual delta synthesises nothing. -/
def weatherInserts (sources : List (List WRow)) : List WRow :=
  (unusualPairs sources).filterMap fun p =>
    if p.2.1 - p.1.1 = 120 then some (p.1.1 + 60, avgObs p.1.2 p.2.2) else none

/-- Cell 14: the deduplicated table with the synthesised rows appended by the
`merged_df.loc[...] = ...` assignments and re-sorted by the final
`sort_index()`. -/
def weatherFinal (sources : List (List WRow)) : List WRow :=
  List.insertionSort wLe (weatherDedup sources ++ weatherInserts sources)

/-- The full hourly grid `t0, t0 + 1h, ..., t0 + n hours`, in minutes. -/
def hourGrid (t0 : TS) (n : Nat) : List TS :=
  (List.range (n + 1)).map fun k : Nat => t0 + 60 * (k : Int)

/-- The hourly grid with its `j`-th hour missing. -/
def hourGridExcept (t0 : TS) (n j : Nat) : List TS :=
  (List.range (n + 1)).filterMap fun k =>
    if k = j then none else some (t0 + 60 * (k : Int))

/-- Twenty half-hour readings for one household with a single null at
timestamp 90: exactly 5% missing, so the household is retained. -/
def sampleRows20 : List WideRow :=
  [(30, [some 4]), (60, [some 4]), (90, [none]), (120, [some 4]),
   (150, [some 4]), (180, [some 4]), (210, [some 4]), (240, [some 4]),
   (270, [some 4]), (300, [some 4]), (330, [some 4]), (360, [some 4]),
   (390, [some 4]), (420, [some 4]), (450, [some 4]), (480, [some 4]),
   (510, [some 4]), (540, [some 4]), (570, [some 4]), (600, [some 4])]

/-- Four half-hourly rows for two households: the second column misses one of
its four readings (25% > 5%), the first none. -/
def cutoffRows : List WideRow :=
  [(30, [some 1, none]), (60, [some 2, some 1]), (90, [some 1, some 1]),
   (120, [some 3, some 7])]

/-! ### Order instances for the two sort relations -/

instance : IsTotal WRow wLe := ⟨fun a b => le_total a.1 b.1⟩

instance : IsTrans WRow wLe := ⟨fun _ _ _ h h' => le_trans h h'⟩

instance : IsTotal MRow mergedLe := by
  refine ⟨fun a b => ?_⟩
  rcases lt_trichotomy a.1 b.1 with h | h | h
  · exact Or.inl (Or.inl h)
  · rcases le_total a.2.1 b.2.1 with h' | h'
    · exact Or.inl (Or.inr ⟨h, h'⟩)
    · exact Or.inr (Or.inr ⟨h.symm, h'⟩)
  · exact Or.inr (Or.inl h)

instance : IsTrans MRow mergedLe := by
  refine ⟨fun a b c hab hbc => ?_⟩
  rcases hab with h | ⟨he, hs⟩
  · rcases hbc with h' | ⟨he', _⟩
    · exact Or.inl (h.trans h')
    · exact Or.inl (he' ▸ h)
  · rcases hbc with h' | ⟨he', hs'⟩
    · exact Or.inl (he ▸ h')
    · exact Or.inr ⟨he.trans he', hs.trans hs'⟩

instance : IsAntisymm TS (· < ·) := ⟨fun _ _ h h' => ((lt_asymm h) h').elim⟩

/-! ### Generic list lemmas -/

/-- A `find?` by a predicate is the head of the corresponding `filter`. -/
theorem find?_eq_head?_filter {α : Type} (p : α → Bool) (l : List α) :
    l.find? p = (l.filter p).head? := by
  induction l with
  | nil => rfl
  | cons x xs ih =>
      by_cases hx : p x
      · rw [List.find?_cons_of_pos _ hx, List.filter_cons_of_pos hx, List.head?_cons]
      · simp only [Bool.not_eq_true] at hx
        rw [List.find?_cons_of_neg _ (by simp [hx]), List.filter_cons_of_neg (by simp [hx]), ih]

/-- Filtering by a weaker predicate first does not change a `find?`. -/
theorem find?_filter_of_imp {α : Type} (p q : α → Bool) (l : List α)
    (h : ∀ a, p a = true → q a = true) :
    (l.filter q).find? p = l.find? p := by
  induction l with
  | nil => rfl
  | cons x xs ih =>
      by_cases hq : q x
      · by_cases hp : p x
        · simp [List.filter_cons, hq, List.find?_cons, hp]
        · simp only [Bool.not_eq_true] at hp
          simp [List.filter_cons, hq, List.find?_cons, hp, ih]
      · have hp : p x = false := by
          cases hpx : p x with
          | false => rfl
          | true => exact absurd (h x hpx) (by simpa using hq)
        simp only [Bool.not_eq_true] at hq
        simp [List.filter_cons, hq, List.find?_cons, hp, ih]

/-! ### Lemmas about `dedupByAux` and `dedupBy` -/

theorem dedupByAux_sublist {α κ : Type} [DecidableEq κ] (key : α → κ)
    (seen : List κ) (l : List α) : (dedupByAux key seen l).Sublist l := by
  induction l generalizing seen with
  | nil => exact List.Sublist.refl _
  | cons x xs ih =>
      by_cases hx : key x ∈ seen
      · rw [dedupByAux, if_pos hx]
        exact (ih seen).trans (List.sublist_cons_self x xs)
      · rw [dedupByAux, if_neg hx]
        exact (ih (key x :: seen)).cons₂ x

theorem dedupBy_sublist {α κ : Type} [DecidableEq κ] (key : α → κ) (l : List α) :
    (dedupBy key l).Sublist l := dedupByAux_sublist key [] l

/-- Which keys survive the dedup scan: exactly those present in the list and
not seen yet. -/
theorem mem_keys_dedupByAux {α κ : Type} [DecidableEq κ] (key : α → κ)
    (seen : List κ) (l : List α) (k : κ) :
    k ∈ (dedupByAux key seen l).map key ↔ k ∉ seen ∧ k ∈ l.map key := by
  induction l generalizing seen with
  | nil => simp [dedupByAux]
  | cons x xs ih =>
      by_cases hx : key x ∈ seen
      · have hk : k = key x → k ∈ seen := fun h => h ▸ hx
        rw [dedupByAux, if_pos hx]
        simp only [List.map_cons, List.mem_cons, ih]
        constructor
        · rintro ⟨h1, h2⟩; exact ⟨h1, Or.inr h2⟩
        · rintro ⟨h1, h2 | h2⟩
          · exact absurd (hk h2) h1
          · exact ⟨h1, h2⟩
      · rw [dedupByAux, if_neg hx]
        simp only [List.map_cons, List.mem_cons, ih]
        constructor
        · rintro (h | ⟨h1, h2⟩)
          · exact ⟨h ▸ hx, Or.inl h⟩
          · exact ⟨fun hs => h1 (Or.inr hs), Or.inr h2⟩
        · rintro ⟨h1, h2 | h2⟩
          · exact Or.inl h2
          · by_cases hkx : k = key x
            · exact Or.inl hkx
            · exact Or.inr ⟨by simp [hkx, h1], h2⟩

theorem keys_dedupByAux_nodup {α κ : Type} [DecidableEq κ] (key : α → κ)
    (seen : List κ) (l : List α) : ((dedupByAux key seen l).map key).Nodup := by
  induction l generalizing seen with
  | nil => simp [dedupByAux]
  | cons x xs ih =>
      by_cases hx : key x ∈ seen
      · rw [dedupByAux, if_pos hx]; exact ih seen
      · rw [dedupByAux, if_neg hx]
        simp only [List.map_cons, List.nodup_cons]
        refine ⟨fun hmem => ?_, ih (key x :: seen)⟩
        exact ((mem_keys_dedupByAux key _ xs (key x)).1 hmem).1 (List.mem_cons_self _ _)

theorem keys_dedupBy_nodup {α κ : Type} [DecidableEq κ] (key : α → κ) (l : List α) :
    ((dedupBy key l).map key).Nodup := keys_dedupByAux_nodup key [] l

theorem mem_keys_dedupBy {α κ : Type} [DecidableEq κ] (key : α → κ) (l : List α)
    (k : κ) : k ∈ (dedupBy key l).map key ↔ k ∈ l.map key := by
  rw [dedupBy, mem_keys_dedupByAux]
  simp

/-- A key-directed `find?` passes through the dedup scan untouched, as long as
the key looked for was not already marked seen. -/
theorem find?_key_dedupByAux {α κ : Type} [DecidableEq κ] (key : α → κ)
    (seen : List κ) (l : List α) (t : κ) (ht : t ∉ seen) :
    (dedupByAux key seen l).find? (fun y => decide (key y = t))
      = l.find? fun y => decide (key y = t) := by
  induction l generalizing seen with
  | nil => rfl
  | cons x xs ih =>
      by_cases hx : key x ∈ seen
      · have hxt : ¬key x = t := fun h => ht (h ▸ hx)
        rw [dedupByAux, if_pos hx, List.find?_cons, decide_eq_false hxt]
        exact ih seen ht
      · by_cases hxt : key x = t
        · rw [dedupByAux, if_neg hx]
          simp [List.find?_cons, hxt]
        · rw [dedupByAux, if_neg hx, List.find?_cons, List.find?_cons,
            decide_eq_false hxt]
          refine ih (key x :: seen) ?_
          simp only [List.mem_cons, not_or]
          exact ⟨fun h => hxt h.symm, ht⟩

theorem find?_key_dedupBy {α κ : Type} [DecidableEq κ] (key : α → κ) (l : List α)
    (t : κ) :
    (dedupBy key l).find? (fun y => decide (key y = t))
      = l.find? fun y => decide (key y = t) :=
  find?_key_dedupByAux key [] l t (List.not_mem_nil t)

/-! ### C8: the calendar-year filter -/

/-- Key-specific count of a conjunctive filter: counting copies of `r` among
elements also satisfying `q` is counting copies of `r` when `r` satisfies `q`
and zero otherwise. -/
theorem countP_and_eq_of_eq {α : Type} [DecidableEq α] (q : α → Bool) (r : α)
    (l : List α) :
    l.countP (fun x => decide (x = r) && q x)
      = if q r then l.countP fun x => decide (x = r) else 0 := by
  induction l with
  | nil => simp
  | cons x xs ih =>
      by_cases hx : x = r
      · subst hx
        by_cases hq : q x <;> simp [List.countP_cons, hq, ih]
      · by_cases hq : q r <;> simp [List.countP_cons, hx, ih, hq]

/-- C8: the filtered tariff table holds exactly (with multiplicity) the tariff
rows whose timestamp lies in calendar year 2013, and the filtered consumption
table exactly the 2013 rows other than the one at 2013-01-01 00:00:00
(timestamp 0), which is dropped. -/
theorem year_filter_contains_exactly (tariff : List TariffRow) (rows : List WideRow)
    (r : TariffRow) (s : WideRow) :
    ((tariffFiltered tariff).countP (fun x => decide (x = r))
      = if inYear2013 r.1 then tariff.countP fun x => decide (x = r) else 0)
    ∧ ((consFiltered rows).countP (fun x => decide (x = s))
      = if inYear2013 s.1 && decide (s.1 ≠ 0) then rows.countP fun x => decide (x = s)
        else 0) := by
  constructor
  · rw [tariffFiltered, List.countP_filter, countP_and_eq_of_eq]
  · rw [consFiltered, List.countP_filter, countP_and_eq_of_eq]

/-! ### C10: the missingness denominator -/

/-- Every block the melt emits for one household column has one row per input
row, and all its rows carry that column's household id; so one household's
melted row count is the filtered row count.  Stated over `enumFrom` to follow
the column index through the induction. -/
theorem countP_household_melt_enumFrom (ids : List String) (rows' : List WideRow)
    (h : String) (s : Nat) (hwf : ∀ r ∈ rows', s + ids.length ≤ r.2.length)
    (hnd : ids.Nodup) (hh : h ∈ ids) :
    ((List.enumFrom s ids).flatMap fun jh =>
        rows'.filterMap fun r => (r.2[jh.1]?).map fun v => (r.1, jh.2, v)).countP
      (fun r => decide (r.2.1 = h)) = rows'.length := by
  induction ids generalizing s with
  | nil => exact absurd hh (List.not_mem_nil h)
  | cons a ids ih =>
      rw [List.enumFrom_cons, List.flatMap_cons, List.countP_append]
      rcases List.nodup_cons.1 hnd with ⟨hna, hnd'⟩
      by_cases hah : a = h
      · subst hah
        have hblock : ((rows'.filterMap fun r =>
            (r.2[s]?).map fun v => (r.1, a, v))).countP (fun r => decide (r.2.1 = a))
            = rows'.length := by
          rw [List.countP_eq_length.2, List.length_filterMap_eq_countP,
            List.countP_eq_length.2]
          · intro r hr
            have hlt : s < r.2.length := by
              have := hwf r hr
              simp only [List.length_cons] at this
              omega
            simp [List.getElem?_eq_getElem hlt]
          · intro b hb
            obtain ⟨r, _, hrb⟩ := List.mem_filterMap.1 hb
            obtain ⟨v, _, rfl⟩ := Option.map_eq_some'.1 hrb
            simp
        have hrest : ((List.enumFrom (s + 1) ids).flatMap fun jh =>
            rows'.filterMap fun r => (r.2[jh.1]?).map fun v => (r.1, jh.2, v)).countP
            (fun r => decide (r.2.1 = a)) = 0 := by
          rw [List.countP_eq_zero]
          intro b hb
          obtain ⟨jh, hjh, hbm⟩ := List.mem_flatMap.1 hb
          obtain ⟨r, _, hrb⟩ := List.mem_filterMap.1 hbm
          obtain ⟨v, _, rfl⟩ := Option.map_eq_some'.1 hrb
          have hsnd : jh.2 ∈ ids := by
            have hm := List.mem_map_of_mem Prod.snd hjh
            rwa [List.enumFrom_map_snd] at hm
          simp only [decide_eq_true_eq]
          exact fun he => hna (he ▸ hsnd)
        rw [hblock, hrest]
        omega
      · have hblock : ((rows'.filterMap fun r =>
            (r.2[s]?).map fun v => (r.1, a, v))).countP (fun r => decide (r.2.1 = h))
            = 0 := by
          rw [List.countP_eq_zero]
          intro b hb
          obtain ⟨r, _, hrb⟩ := List.mem_filterMap.1 hb
          obtain ⟨v, _, rfl⟩ := Option.map_eq_some'.1 hrb
          simp [hah]
        have hh' : h ∈ ids := by
          rcases List.mem_cons.1 hh with he | hm
          · exact absurd he.symm hah
          · exact hm
        have hwf' : ∀ r ∈ rows', s + 1 + ids.length ≤ r.2.length := by
          intro r hr
          have hlr := hwf r hr
          simp only [List.length_cons] at hlr
          omega
        rw [hblock, ih (s + 1) hwf' hnd' hh', Nat.zero_add]

/-- C10: for every household column, the denominator of the missing-value
percentage (its melted row count, nulls included) equals the number of
filtered consumption rows; hence on a non-empty filtered table the division
is by a positive count — no division by zero — and the percentage lies
between 0 and 100. -/
theorem missing_denominator_safe (ids : List String) (rows : List WideRow)
    (h : String) (hwf : ∀ r ∈ rows, r.2.length = ids.length) (hnd : ids.Nodup)
    (hh : h ∈ ids) :
    sizeOfH (consumptionMelted ids rows) h = (consFiltered rows).length
    ∧ (consFiltered rows ≠ [] →
        0 < sizeOfH (consumptionMelted ids rows) h
        ∧ 0 ≤ pctMissing (consumptionMelted ids rows) h
        ∧ pctMissing (consumptionMelted ids rows) h ≤ 100) := by
  have hsz : sizeOfH (consumptionMelted ids rows) h = (consFiltered rows).length := by
    rw [sizeOfH, ← List.countP_eq_length_filter, consumptionMelted, melt]
    exact countP_household_melt_enumFrom ids (consFiltered rows) h 0
      (fun r hr => le_of_eq (by
        rw [Nat.zero_add, hwf r (List.mem_of_mem_filter hr)]))
      hnd hh
  refine ⟨hsz, fun hne => ?_⟩
  have hpos : 0 < sizeOfH (consumptionMelted ids rows) h := by
    rw [hsz]
    exact List.length_pos.2 hne
  have hposq : (0 : ℚ) < (sizeOfH (consumptionMelted ids rows) h : ℚ) := by
    exact_mod_cast hpos
  have hle : missingOfH (consumptionMelted ids rows) h
      ≤ sizeOfH (consumptionMelted ids rows) h := by
    rw [missingOfH, sizeOfH, ← List.countP_eq_length_filter,
      ← List.countP_eq_length_filter]
    exact List.countP_mono_left fun r _ hp => by
      simp only [Bool.and_eq_true] at hp
      exact hp.1
  refine ⟨hpos, ?_, ?_⟩
  · rw [pctMissing]
    positivity
  · rw [pctMissing, div_mul_eq_mul_div, div_le_iff₀ hposq]
    have : (missingOfH (consumptionMelted ids rows) h : ℚ)
        ≤ (sizeOfH (consumptionMelted ids rows) h : ℚ) := by exact_mod_cast hle
    nlinarith

/-- C10 witness: two household columns over two filtered rows — each
denominator is 2, positive, and the percentages (50% here) lie within
bounds. -/
theorem missing_denominator_safe_witness :
    sizeOfH (consumptionMelted ["MAC001", "MAC002"]
        [(30, [some 1, none]), (60, [none, some 2])]) "MAC001" = 2
    ∧ 0 ≤ pctMissing (consumptionMelted ["MAC001", "MAC002"]
        [(30, [some 1, none]), (60, [none, some 2])]) "MAC001"
    ∧ pctMissing (consumptionMelted ["MAC001", "MAC002"]
        [(30, [some 1, none]), (60, [none, some 2])]) "MAC001" ≤ 100 := by
  have happ := missing_denominator_safe ["MAC001", "MAC002"]
    [(30, [some 1, none]), (60, [none, some 2])] "MAC001"
    (by decide) (by decide) (by decide)
  exact ⟨happ.1.trans (by decide), (happ.2 (by decide)).2.1, (happ.2 (by decide)).2.2⟩

/-! ### C4: hourly aggregation sums exactly the bucketed readings -/

/-- C4: every row `(hour, household, c)` of the hourly consumption aggregate
has `c` equal to the sum of exactly those post-imputation readings of that
household whose `floor(timestamp + 30 minutes)` is that hour. -/
theorem hourly_sum_exact (ids : List String) (rows : List WideRow) (hr : TS)
    (h : String) (c : ℚ) (hmem : (hr, h, c) ∈ consumptionHourly ids rows) :
    c = sumKnown (((consumptionImputed ids rows).filter fun r =>
        decide (floorHour (r.1 + 30) = hr ∧ r.2.1 = h)).map fun r => r.2.2) := by
  rw [consumptionHourly] at hmem
  obtain ⟨k, hk, heq⟩ := List.mem_map.1 hmem
  obtain ⟨k1, k2⟩ := k
  simp only [Prod.mk.injEq] at heq
  obtain ⟨rfl, rfl, rfl⟩ := heq
  rw [consumptionWithHour, List.filter_map, List.map_map]
  rfl

/-- C4 witness: the spec's scenario — readings 0.2 at 2013-06-01 00:30 and
0.3 at 01:00 (minutes 217470 and 217500) for household MAC001 land in hour
2013-06-01 01:00 (minute 217500) and sum to 0.5. -/
theorem hourly_sum_exact_witness :
    ((217500 : TS), "MAC001", (1 : ℚ)/2) ∈ consumptionHourly ["MAC001"]
        [(217470, [some (2/10)]), (217500, [some (3/10)])]
    ∧ (1 : ℚ)/2 = sumKnown (((consumptionImputed ["MAC001"]
        [(217470, [some (2/10)]), (217500, [some (3/10)])]).filter fun r =>
          decide (floorHour (r.1 + 30) = 217500 ∧ r.2.1 = "MAC001")).map
            fun r => r.2.2) :=
  ⟨by decide, hourly_sum_exact ["MAC001"]
    [(217470, [some (2/10)]), (217500, [some (3/10)])] 217500 "MAC001"
    ((1 : ℚ)/2) (by decide)⟩

/-! ### C6: the daylight-saving gap handler -/

/-- The deduplicated weather table is still sorted by timestamp. -/
theorem weatherDedup_sorted (sources : List (List WRow)) :
    List.Sorted wLe (weatherDedup sources) :=
  List.Pairwise.sublist (dedupBy_sublist Prod.fst _)
    (List.sorted_insertionSort wLe (weatherConcat sources))

/-- C6: every successive pair of deduplicated weather rows at exactly a
two-hour delta yields a synthesised intermediate row whose five measurement
columns are the columnwise means of the bracketing rows; and when no
successive delta equals two hours, nothing is synthesised and the handler
leaves the table unchanged. -/
theorem weather_gap_handler (sources : List (List WRow)) :
    (∀ p ∈ adjPairs (weatherDedup sources), p.2.1 - p.1.1 = 120 →
        (p.1.1 + 60, avgObs p.1.2 p.2.2) ∈ weatherFinal sources)
    ∧ ((∀ p ∈ adjPairs (weatherDedup sources), p.2.1 - p.1.1 ≠ 120) →
        weatherFinal sources = weatherDedup sources) := by
  constructor
  · intro p hp h120
    have hu : p ∈ unusualPairs sources :=
      List.mem_filter.2 ⟨hp, by simp [h120]⟩
    have hm : (p.1.1 + 60, avgObs p.1.2 p.2.2) ∈ weatherInserts sources :=
      List.mem_filterMap.2 ⟨p, hu, by rw [if_pos h120]⟩
    rw [weatherFinal]
    exact (List.mem_insertionSort wLe).2 (List.mem_append_right _ hm)
  · intro hnone
    have hins : weatherInserts sources = [] := by
      rw [weatherInserts, List.filterMap_eq_nil_iff]
      intro p hp
      rw [if_neg (hnone p (List.mem_filter.1 hp).1)]
    rw [weatherFinal, hins, List.append_nil]
    exact (weatherDedup_sorted sources).insertionSort_eq

/-! ### The imputation transform: frame and totality -/

theorem mem_of_getElem?_eq_some {α : Type} {l : List α} {n : Nat} {a : α}
    (h : l[n]? = some a) : a ∈ l := by
  obtain ⟨hlt, rfl⟩ := List.getElem?_eq_some.1 h
  exact l.getElem_mem hlt

/-- The imputed table reproduces the timestamp and household of every row. -/
theorem consumptionImputed_map_pair (ids : List String) (rows : List WideRow) :
    (consumptionImputed ids rows).map (fun r => (r.1, r.2.1))
      = (meltedFiltered ids rows).map fun r => (r.1, r.2.1) := by
  rw [consumptionImputed, List.map_map]
  conv_rhs => rw [← List.enum_map_snd (meltedFiltered ids rows), List.map_map]
  rfl

/-- Row `i` of the imputed table, written through the groupby-transform
alignment. -/
theorem consumptionImputed_getElem (ids : List String) (rows : List WideRow)
    (i : Nat) (t : TS) (h : String) (v : Option ℚ)
    (hi : (meltedFiltered ids rows)[i]? = some (t, h, v)) :
    (consumptionImputed ids rows)[i]? = some (t, h,
      ((imputeSeries (seriesOf (meltedFiltered ids rows) h))[countBefore
          (meltedFiltered ids rows) i h]?).bind Prod.snd) := by
  rw [consumptionImputed, List.getElem?_map, List.getElem?_enum, hi]
  rfl

/-- The row at index `i` reappears in its household's filtered series at
position `countBefore`. -/
theorem filter_getElem_countBefore (tbl : List CRow) (i : Nat) (t : TS)
    (h : String) (v : Option ℚ) (hi : tbl[i]? = some (t, h, v)) :
    (tbl.filter fun r => decide (r.2.1 = h))[countBefore tbl i h]? = some (t, h, v) := by
  induction tbl generalizing i with
  | nil => simp at hi
  | cons x xs ih =>
      cases i with
      | zero =>
          rw [List.getElem?_cons_zero, Option.some_inj] at hi
          subst hi
          rw [List.filter_cons_of_pos (by simp), countBefore]
          simp
      | succ n =>
          rw [List.getElem?_cons_succ] at hi
          have hcb : countBefore (x :: xs) (n + 1) h
              = (if x.2.1 = h then 1 else 0) + countBefore xs n h := by
            rw [countBefore, countBefore, List.take_cons (Nat.succ_pos n)]
            by_cases hx : x.2.1 = h
            · rw [List.filter_cons_of_pos (by simp [hx]), if_pos hx]
              simp [Nat.add_comm]
            · rw [List.filter_cons_of_neg (by simp [hx]), if_neg hx]
              simp
          by_cases hx : x.2.1 = h
          · rw [List.filter_cons_of_pos (by simp [hx]), hcb, if_pos hx,
              Nat.add_comm 1 _, List.getElem?_cons_succ]
            exact ih n hi
          · rw [List.filter_cons_of_neg (by simp [hx]), hcb, if_neg hx,
              Nat.zero_add]
            exact ih n hi

/-- Positions carrying a known value pass through `imputeSeries` unchanged. -/
theorem imputeSeries_getElem_known (s : List (TS × Option ℚ)) (k : Nat) (t : TS)
    (q : ℚ) (hk : s[k]? = some (t, some q)) :
    (imputeSeries s)[k]? = some (t, some q) := by
  rw [imputeSeries, List.getElem?_map, List.getElem?_enum, hk]
  rfl

/-- C9: imputation changes only missing entries — every row keeps its
timestamp and household (in order, hence as a set), and every row whose
original consumption is non-null keeps exactly its original value. -/
theorem impute_changes_only_nulls (ids : List String) (rows : List WideRow) :
    ((consumptionImputed ids rows).map (fun r => (r.1, r.2.1))
        = (meltedFiltered ids rows).map fun r => (r.1, r.2.1))
    ∧ ∀ (i : Nat) (t : TS) (h : String) (v : ℚ),
        (meltedFiltered ids rows)[i]? = some (t, h, some v) →
        (consumptionImputed ids rows)[i]? = some (t, h, some v) := by
  refine ⟨consumptionImputed_map_pair ids rows, fun i t h v hi => ?_⟩
  rw [consumptionImputed_getElem ids rows i t h (some v) hi]
  have hf := filter_getElem_countBefore (meltedFiltered ids rows) i t h (some v) hi
  have hs : (seriesOf (meltedFiltered ids rows) h)[countBefore
      (meltedFiltered ids rows) i h]? = some (t, some v) := by
    rw [seriesOf, List.getElem?_map, hf]
    rfl
  rw [imputeSeries_getElem_known _ _ _ _ hs]
  rfl

/-! ### C1: imputation leaves no nulls for any retained household -/

theorem mem_dedupBy_id {α : Type} [DecidableEq α] (l : List α) (a : α) :
    a ∈ dedupBy id l ↔ a ∈ l := by
  have h := mem_keys_dedupBy (id : α → α) l a
  simpa using h

/-- Restricting to one retained household commutes with the removal filter. -/
theorem meltedFiltered_filter_household (ids : List String) (rows : List WideRow)
    (h : String) (hnr : h ∉ householdsToRemove (consumptionMelted ids rows)) :
    (meltedFiltered ids rows).filter (fun r => decide (r.2.1 = h))
      = (consumptionMelted ids rows).filter fun r => decide (r.2.1 = h) := by
  rw [meltedFiltered, List.filter_filter]
  apply List.filter_congr
  intro r _
  by_cases hr : r.2.1 = h
  · simp [hr, hnr]
  · simp [hr]

theorem lastKnown_foldl_isSome (s : List (TS × Option ℚ)) :
    ∀ acc : Option (TS × ℚ), ((∃ p ∈ s, p.2 ≠ none) ∨ acc.isSome = true) →
      (s.foldl (fun acc p => match p.2 with | some v => some (p.1, v) | none => acc)
        acc).isSome = true := by
  induction s with
  | nil =>
      intro acc h
      rcases h with ⟨p, hp, _⟩ | h
      · exact absurd hp (List.not_mem_nil p)
      · exact h
  | cons x xs ih =>
      intro acc h
      rw [List.foldl_cons]
      rcases hx : x.2 with _ | v
      · refine ih acc ?_
        rcases h with ⟨p, hp, hne⟩ | hacc
        · rcases List.mem_cons.1 hp with rfl | hp'
          · exact absurd hx hne
          · exact Or.inl ⟨p, hp', hne⟩
        · exact Or.inr hacc
      · exact ih (some (x.1, v)) (Or.inr rfl)

theorem lastKnown_isSome (s : List (TS × Option ℚ)) (hs : ∃ p ∈ s, p.2 ≠ none) :
    (lastKnown s).isSome = true :=
  lastKnown_foldl_isSome s none (Or.inl hs)

theorem firstKnown_isSome (s : List (TS × Option ℚ)) (hs : ∃ p ∈ s, p.2 ≠ none) :
    (firstKnown s).isSome = true := by
  rw [firstKnown]
  cases hf : s.findSome? fun p => p.2.map fun v => (p.1, v) with
  | some _ => rfl
  | none =>
      obtain ⟨p, hp, hne⟩ := hs
      have hm := List.findSome?_eq_none_iff.1 hf p hp
      rw [Option.map_eq_none'] at hm
      exact absurd hm hne

theorem fillValue_isSome (b a : Option (TS × ℚ)) (t : TS)
    (h : b.isSome = true ∨ a.isSome = true) : (fillValue b a t).isSome = true := by
  rcases b with _ | ⟨t0, v0⟩ <;> rcases a with _ | ⟨t1, v1⟩
  · simp at h
  · rfl
  · rfl
  · rfl

theorem imputeSeries_length (s : List (TS × Option ℚ)) :
    (imputeSeries s).length = s.length := by
  rw [imputeSeries, List.length_map, List.enum_length]

/-- A series holding at least one known value is imputed to a fully known
series. -/
theorem imputeSeries_isSome (s : List (TS × Option ℚ)) (hs : ∃ p ∈ s, p.2 ≠ none) :
    ∀ q ∈ imputeSeries s, q.2.isSome = true := by
  intro q hq
  rw [imputeSeries] at hq
  obtain ⟨kp, hkp, rfl⟩ := List.mem_map.1 hq
  obtain ⟨k, t, v⟩ := kp
  have hk : s[k]? = some (t, v) := List.mem_enum_iff_getElem?.1 hkp
  cases v with
  | some q' => rfl
  | none =>
      have hlt : k < s.length := (List.getElem?_eq_some.1 hk).1
      show (fillValue (lastKnown (s.take k)) (firstKnown (s.drop (k + 1))) t).isSome
        = true
      apply fillValue_isSome
      obtain ⟨p, hp, hpne⟩ := hs
      have hps : p ∈ s.take k ++ s.drop k := by
        rw [List.take_append_drop]; exact hp
      have hgl : s[k] = (t, none) := by
        have h2 := List.getElem?_eq_getElem hlt
        rw [hk] at h2
        exact (Option.some_inj.1 h2).symm
      rcases List.mem_append.1 hps with h1 | h2
      · exact Or.inl (lastKnown_isSome _ ⟨p, h1, hpne⟩)
      · rw [List.drop_eq_getElem_cons hlt] at h2
        rcases List.mem_cons.1 h2 with rfl | h3
        · rw [hgl] at hpne
          exact absurd rfl hpne
        · exact Or.inr (firstKnown_isSome _ ⟨p, h3, hpne⟩)

/-- A household surviving the 5% cutoff has at least one known reading: its
missing count is strictly below its row count. -/
theorem exists_known_of_retained (ids : List String) (rows : List WideRow)
    (h : String) (hmem : h ∈ (meltedFiltered ids rows).map fun r => r.2.1) :
    ∃ p ∈ seriesOf (meltedFiltered ids rows) h, p.2 ≠ none := by
  obtain ⟨row, hrow, hrh⟩ := List.mem_map.1 hmem
  have hrowm := List.mem_filter.1 hrow
  have hnr : h ∉ householdsToRemove (consumptionMelted ids rows) := by
    have h2 := hrowm.2
    rw [decide_eq_true_eq, hrh] at h2
    exact h2
  have hhm : h ∈ (consumptionMelted ids rows).map fun r => r.2.1 :=
    List.mem_map.2 ⟨row, hrowm.1, hrh⟩
  have hids : h ∈ householdIds (consumptionMelted ids rows) :=
    (mem_dedupBy_id _ _).2 hhm
  have hpct : ¬5 < pctMissing (consumptionMelted ids rows) h := fun hlt =>
    hnr (List.mem_filter.2 ⟨hids, by simp [hlt]⟩)
  have hsize : 0 < sizeOfH (consumptionMelted ids rows) h := by
    rw [sizeOfH]
    exact List.length_pos_of_mem
      (List.mem_filter.2 ⟨hrowm.1, by simp [hrh]⟩)
  have hmiss : missingOfH (consumptionMelted ids rows) h
      < sizeOfH (consumptionMelted ids rows) h := by
    have h5 : pctMissing (consumptionMelted ids rows) h ≤ 5 := le_of_not_lt hpct
    rw [pctMissing] at h5
    have hq : (0 : ℚ) < (sizeOfH (consumptionMelted ids rows) h : ℚ) := by
      exact_mod_cast hsize
    rw [div_mul_eq_mul_div, div_le_iff₀ hq] at h5
    have hn : missingOfH (consumptionMelted ids rows) h * 100
        ≤ 5 * sizeOfH (consumptionMelted ids rows) h := by exact_mod_cast h5
    omega
  have hser : seriesOf (meltedFiltered ids rows) h
      = seriesOf (consumptionMelted ids rows) h := by
    rw [seriesOf, seriesOf, meltedFiltered_filter_household ids rows h hnr]
  by_contra hcon
  push_neg at hcon
  have hall : ∀ p ∈ seriesOf (consumptionMelted ids rows) h, p.2 = none := by
    rw [← hser]
    exact hcon
  have hcount : List.countP (fun p => decide (p.2 = none))
      (seriesOf (consumptionMelted ids rows) h)
      = missingOfH (consumptionMelted ids rows) h := by
    rw [seriesOf, List.countP_map, List.countP_filter, missingOfH,
      ← List.countP_eq_length_filter]
    congr 1
    funext r
    show (decide (r.2.2 = none) && decide (r.2.1 = h))
      = (decide (r.2.1 = h) && decide (r.2.2 = none))
    exact Bool.and_comm _ _
  have hlen : (seriesOf (consumptionMelted ids rows) h).length
      = sizeOfH (consumptionMelted ids rows) h := by
    rw [seriesOf, List.length_map, sizeOfH]
  have hfull : List.countP (fun p : TS × Option ℚ => decide (p.2 = none))
      (seriesOf (consumptionMelted ids rows) h)
      = (seriesOf (consumptionMelted ids rows) h).length := by
    rw [List.countP_eq_length]
    intro p hp
    simp [hall p hp]
  rw [hcount, hlen] at hfull
  omega

/-- C1: after imputation not a single null remains in the consumption column,
for every possible input: every retained household kept at least one known
reading, so interpolation plus forward/backward fill is total.  The guarded
hard failure can therefore never trigger, the pipeline always reaches
aggregation with a null-free series, and the merged output's consumption
column (a sum of known readings) never holds a null. -/
theorem imputation_no_nulls (ids : List String) (rows : List WideRow) :
    (consumptionImputed ids rows).all (fun r => r.2.2.isSome) = true := by
  rw [List.all_eq_true]
  intro r hr
  rw [consumptionImputed] at hr
  obtain ⟨ir, hir, rfl⟩ := List.mem_map.1 hr
  obtain ⟨i, t, h, v⟩ := ir
  have hi : (meltedFiltered ids rows)[i]? = some (t, h, v) :=
    List.mem_enum_iff_getElem?.1 hir
  have hmem : h ∈ (meltedFiltered ids rows).map fun r => r.2.1 :=
    List.mem_map.2 ⟨(t, h, v), mem_of_getElem?_eq_some hi, rfl⟩
  have hknown := exists_known_of_retained ids rows h hmem
  have hcb := filter_getElem_countBefore (meltedFiltered ids rows) i t h v hi
  have hs : (seriesOf (meltedFiltered ids rows) h)[countBefore
      (meltedFiltered ids rows) i h]? = some (t, v) := by
    rw [seriesOf, List.getElem?_map, hcb]
    rfl
  have hlt : countBefore (meltedFiltered ids rows) i h
      < (imputeSeries (seriesOf (meltedFiltered ids rows) h)).length := by
    rw [imputeSeries_length]
    exact (List.getElem?_eq_some.1 hs).1
  have hq := List.getElem?_eq_getElem hlt
  have hqmem := (imputeSeries (seriesOf (meltedFiltered ids rows) h)).getElem_mem hlt
  have hsome := imputeSeries_isSome _ hknown _ hqmem
  show (((imputeSeries (seriesOf (meltedFiltered ids rows) h))[countBefore
      (meltedFiltered ids rows) i h]?).bind Prod.snd).isSome = true
  rw [hq]
  simpa using hsome

/-- C9 witness: the retained household's known reading (timestamp 30,
value 4) passes through imputation unchanged at its original position, while
the null at timestamp 90 is filled in place without adding or removing
rows. -/
theorem impute_changes_only_nulls_witness :
    (consumptionImputed ["MAC001"] sampleRows20)[0]? = some (30, "MAC001", some 4)
    ∧ (consumptionImputed ["MAC001"] sampleRows20)[2]? = some (90, "MAC001", some 4)
    ∧ (consumptionImputed ["MAC001"] sampleRows20).length = 20 :=
  ⟨(impute_changes_only_nulls ["MAC001"] sampleRows20).2 0 30 "MAC001" 4 (by decide),
    by decide, by decide⟩

/-- C6 witness: the spec's scenario — 2013-03-31 with hour 01:00 missing,
00:00 at temp 5 and 02:00 at temp 7 (timestamps 128160 and 128280 in minutes)
— synthesises 01:00 (minute 128220) with temp 6, the columnwise mean. -/
theorem weather_gap_handler_witness :
    (((128220 : TS), avgObs ⟨1, 2, 5, 0, 50⟩ ⟨3, 4, 7, 1, 60⟩)
        ∈ weatherFinal [[(128160, ⟨1, 2, 5, 0, 50⟩), (128280, ⟨3, 4, 7, 1, 60⟩)]])
    ∧ avgObs ⟨1, 2, 5, 0, 50⟩ ⟨3, 4, 7, 1, 60⟩ = ⟨2, 3, 6, 1/2, 55⟩ :=
  ⟨(weather_gap_handler [[(128160, ⟨1, 2, 5, 0, 50⟩), (128280, ⟨3, 4, 7, 1, 60⟩)]]).1
      ((128160, ⟨1, 2, 5, 0, 50⟩), (128280, ⟨3, 4, 7, 1, 60⟩)) (by decide) (by decide),
    by decide⟩

/-! ### C7: helper lemmas on adjacent pairs and hourly grids -/

theorem filter_cons_pos_explicit {α : Type} (p : α → Bool) (a : α) (l : List α)
    (h : p a = true) : (a :: l).filter p = a :: l.filter p :=
  List.filter_cons_of_pos h

theorem adjPairs_cons_cons {α : Type} (x y : α) (l : List α) :
    adjPairs (x :: y :: l) = (x, y) :: adjPairs (y :: l) := rfl

/-- Adjacent pairs across a concatenation split at a known junction. -/
theorem adjPairs_append {α : Type} (X : List α) (a b : α) (Y : List α) :
    adjPairs (X ++ a :: b :: Y) = adjPairs (X ++ [a]) ++ (a, b) :: adjPairs (b :: Y) := by
  induction X with
  | nil => rfl
  | cons x X' ih =>
      cases X' with
      | nil => rfl
      | cons z W =>
          rw [show (x :: z :: W) ++ a :: b :: Y = x :: z :: (W ++ a :: b :: Y) from rfl,
            adjPairs_cons_cons,
            show (x :: z :: W) ++ [a] = x :: z :: (W ++ [a]) from rfl,
            adjPairs_cons_cons]
          rw [show z :: (W ++ a :: b :: Y) = (z :: W) ++ a :: b :: Y from rfl,
            show z :: (W ++ [a]) = (z :: W) ++ [a] from rfl, ih]
          rfl

theorem adjPairs_map {α β : Type} (f : α → β) (l : List α) :
    adjPairs (l.map f) = (adjPairs l).map (Prod.map f f) := by
  rw [adjPairs, adjPairs, ← List.map_tail, List.zip_map]

/-- Successive entries of an hourly run differ by exactly sixty minutes. -/
theorem adjPairs_range'_delta (t0 : TS) (s len : Nat) :
    ∀ p ∈ adjPairs ((List.range' s len).map fun k : Nat => t0 + 60 * (k : Int)),
      p.2 - p.1 = 60 := by
  induction len generalizing s with
  | zero =>
      intro p hp
      simp [adjPairs] at hp
  | succ len ih =>
      cases len with
      | zero =>
          intro p hp
          simp [adjPairs] at hp
      | succ len' =>
          intro p hp
          rw [List.range'_succ, List.range'_succ, List.map_cons, List.map_cons,
            adjPairs_cons_cons] at hp
          rcases List.mem_cons.1 hp with rfl | hp'
          · show (t0 + 60 * ((s + 1 : Nat) : Int)) - (t0 + 60 * (s : Int)) = 60
            push_cast
            ring
          · apply ih (s + 1) p
            rw [List.range'_succ, List.map_cons]
            exact hp'

theorem filterMap_congr' {α β : Type} {f g : α → Option β} (l : List α)
    (h : ∀ x ∈ l, f x = g x) : l.filterMap f = l.filterMap g := by
  induction l with
  | nil => rfl
  | cons x xs ih =>
      rw [List.filterMap_cons, List.filterMap_cons, h x (List.mem_cons_self x xs),
        ih fun y hy => h y (List.mem_cons_of_mem x hy)]

theorem filterMap_if_eq_map_filter {α β : Type} [DecidableEq α] (f : α → β)
    (j : α) (l : List α) :
    (l.filterMap fun k => if k = j then none else some (f k))
      = (l.filter fun k => decide ¬(k = j)).map f := by
  induction l with
  | nil => rfl
  | cons x xs ih =>
      by_cases hx : x = j
      · simp [hx, ih]
      · simp [hx, ih]

theorem hourGrid_pairwise (t0 : TS) (n : Nat) :
    (hourGrid t0 n).Pairwise (· < ·) := by
  rw [hourGrid]
  refine List.Pairwise.map _ ?_ (List.pairwise_lt_range (n + 1))
  intro a b hab
  show t0 + 60 * (a : Int) < t0 + 60 * (b : Int)
  have hab' : (a : Int) < (b : Int) := by exact_mod_cast hab
  linarith

theorem hourGridExcept_pairwise (t0 : TS) (n j : Nat) :
    (hourGridExcept t0 n j).Pairwise (· < ·) := by
  rw [hourGridExcept, filterMap_if_eq_map_filter]
  refine List.Pairwise.map _ ?_
    (List.Pairwise.sublist (List.filter_sublist _) (List.pairwise_lt_range (n + 1)))
  intro a b hab
  show t0 + 60 * (a : Int) < t0 + 60 * (b : Int)
  have hab' : (a : Int) < (b : Int) := by exact_mod_cast hab
  linarith

theorem pairwise_lt_of_le_nodup (l : List TS) (hle : l.Pairwise (· ≤ ·))
    (hnd : l.Nodup) : l.Pairwise (· < ·) :=
  (hle.and hnd).imp fun hab => lt_of_le_of_ne hab.1 hab.2

/-- The hourly grid with a missing interior hour splits into the run before
the hole and the run after it. -/
theorem hourGridExcept_decomp (t0 : TS) (n j : Nat) (hjn : j < n) :
    hourGridExcept t0 n j
      = ((List.range' 0 j).map fun k : Nat => t0 + 60 * (k : Int))
        ++ (List.range' (j + 1) (n - j)).map fun k : Nat => t0 + 60 * (k : Int) := by
  rw [hourGridExcept, filterMap_if_eq_map_filter, ← List.map_append]
  congr 1
  have hsplit : List.range (n + 1) = List.range' 0 j ++ List.range' j (n + 1 - j) := by
    rw [List.range_eq_range']
    have h := List.range'_append 0 j (n + 1 - j) 1
    rw [show (n + 1 - j) + j = n + 1 by omega] at h
    rw [← h]
    norm_num
  rw [hsplit, List.filter_append]
  have h1 : (List.range' 0 j).filter (fun k => decide ¬(k = j)) = List.range' 0 j :=
    List.filter_eq_self.2 fun k hk => by
      have := List.mem_range'_1.1 hk
      simp only [decide_eq_true_eq]
      omega
  have h2 : List.range' j (n + 1 - j) = j :: List.range' (j + 1) (n - j) := by
    rw [show n + 1 - j = (n - j) + 1 by omega, List.range'_succ]
  have h3 : (List.range' (j + 1) (n - j)).filter (fun k => decide ¬(k = j))
      = List.range' (j + 1) (n - j) :=
    List.filter_eq_self.2 fun k hk => by
      have := List.mem_range'_1.1 hk
      simp only [decide_eq_true_eq]
      omega
  rw [h1, h2, List.filter_cons_of_neg (by simp), h3]

/-! ### C7: the weather output covers the full hourly grid -/

theorem weatherDedup_keys_le (sources : List (List WRow)) :
    ((weatherDedup sources).map Prod.fst).Pairwise (· ≤ ·) :=
  List.Pairwise.map Prod.fst (fun _ _ hab => hab) (weatherDedup_sorted sources)

theorem weatherDedup_keys_nodup (sources : List (List WRow)) :
    ((weatherDedup sources).map Prod.fst).Nodup :=
  keys_dedupByAux_nodup Prod.fst [] (weatherSorted sources)

theorem weatherDedup_keys_mem (sources : List (List WRow)) (t : TS) :
    t ∈ (weatherDedup sources).map Prod.fst
      ↔ t ∈ (weatherConcat sources).map Prod.fst := by
  rw [weatherDedup, mem_keys_dedupBy]
  exact ((List.perm_insertionSort wLe (weatherConcat sources)).map Prod.fst).mem_iff

/-- The synthesised rows' timestamps, computed from the deduplicated key list
alone. -/
theorem weatherInserts_keys (sources : List (List WRow)) :
    (weatherInserts sources).map Prod.fst
      = ((adjPairs ((weatherDedup sources).map Prod.fst)).filter
          fun q => decide (q.2 - q.1 ≠ 60)).filterMap
          fun q => if q.2 - q.1 = 120 then some (q.1 + 60) else none := by
  rw [weatherInserts, unusualPairs, List.map_filterMap, adjPairs_map,
    List.filter_map, List.filterMap_map]
  apply filterMap_congr'
  intro p _
  by_cases hp : p.2.1 - p.1.1 = 120
  · rw [if_pos hp]
    show some (p.1.1 + 60) = if p.2.1 - p.1.1 = 120 then some (p.1.1 + 60) else none
    rw [if_pos hp]
  · rw [if_neg hp]
    show (none : Option TS) = if p.2.1 - p.1.1 = 120 then some (p.1.1 + 60) else none
    rw [if_neg hp]

/-- C7: when the weather sources' timestamps (duplicates allowed) cover an
hourly grid except one interior hour, the consolidated output holds exactly
one row per hour of the full grid, with strictly increasing (hence duplicate
free, sorted) timestamps. -/
theorem weather_full_grid (sources : List (List WRow)) (t0 : TS) (n j : Nat)
    (h0 : 0 < j) (hjn : j < n)
    (hcover : ∀ t ∈ (weatherConcat sources).map Prod.fst, t ∈ hourGridExcept t0 n j)
    (hfull : ∀ t ∈ hourGridExcept t0 n j, t ∈ (weatherConcat sources).map Prod.fst) :
    (weatherFinal sources).map Prod.fst = hourGrid t0 n
    ∧ ((weatherFinal sources).map Prod.fst).Pairwise (· < ·) := by
  have hGE_lt := hourGridExcept_pairwise t0 n j
  have hGE_nodup : (hourGridExcept t0 n j).Nodup := hGE_lt.imp ne_of_lt
  have hK_lt := pairwise_lt_of_le_nodup _ (weatherDedup_keys_le sources)
    (weatherDedup_keys_nodup sources)
  -- the deduplicated key list is the grid minus its hole
  have hkeys : (weatherDedup sources).map Prod.fst = hourGridExcept t0 n j := by
    have hperm := (List.perm_ext_iff_of_nodup (weatherDedup_keys_nodup sources)
      hGE_nodup).2 fun t => by
        rw [weatherDedup_keys_mem]
        exact ⟨hcover t, hfull t⟩
    exact List.eq_of_perm_of_sorted hperm hK_lt hGE_lt
  -- the synthesised rows carry exactly the missing hour
  have hm1 : 1 ≤ j := h0
  have hsub : ((j - 1 : Nat) : Int) = (j : Int) - 1 := by
    push_cast [Nat.cast_sub hm1]
    ring
  have hA : List.range' 0 j = List.range' 0 (j - 1) ++ [j - 1] := by
    have h := List.range'_append 0 (j - 1) 1 1
    rw [show 0 + 1 * (j - 1) = j - 1 by omega, show 1 + (j - 1) = j by omega,
      show List.range' (j - 1) 1 1 = [j - 1] from rfl] at h
    exact h.symm
  have hB : List.range' (j + 1) (n - j) = (j + 1) :: List.range' (j + 2) (n - j - 1) := by
    have h := List.range'_succ (j + 1) (n - j - 1) 1
    rw [show n - j - 1 + 1 = n - j by omega] at h
    exact h
  have hKform : hourGridExcept t0 n j
      = ((List.range' 0 (j - 1)).map fun k : Nat => t0 + 60 * (k : Int))
        ++ (t0 + 60 * ((j - 1 : Nat) : Int))
        :: (t0 + 60 * ((j + 1 : Nat) : Int))
        :: ((List.range' (j + 2) (n - j - 1)).map fun k : Nat => t0 + 60 * (k : Int)) := by
    rw [hourGridExcept_decomp t0 n j hjn, hA, hB]
    simp only [List.map_append, List.map_cons, List.map_nil, List.append_assoc,
      List.singleton_append, List.cons_append, List.nil_append]
  have hX : ((List.range' 0 (j - 1)).map fun k : Nat => t0 + 60 * (k : Int))
      ++ [t0 + 60 * ((j - 1 : Nat) : Int)]
      = (List.range' 0 j).map fun k : Nat => t0 + 60 * (k : Int) := by
    rw [hA]
    simp only [List.map_append, List.map_cons, List.map_nil]
  have hY : (t0 + 60 * ((j + 1 : Nat) : Int))
      :: ((List.range' (j + 2) (n - j - 1)).map fun k : Nat => t0 + 60 * (k : Int))
      = (List.range' (j + 1) (n - j)).map fun k : Nat => t0 + 60 * (k : Int) := by
    rw [hB, List.map_cons]
  have hjunc : (t0 + 60 * ((j + 1 : Nat) : Int)) - (t0 + 60 * ((j - 1 : Nat) : Int))
      = 120 := by
    rw [hsub]
    push_cast
    ring
  have hins : (weatherInserts sources).map Prod.fst = [t0 + 60 * (j : Int)] := by
    rw [weatherInserts_keys, hkeys, hKform, adjPairs_append, List.filter_append, hX, hY]
    have hX0 : (adjPairs ((List.range' 0 j).map fun k : Nat => t0 + 60 * (k : Int))).filter
        (fun q => decide (q.2 - q.1 ≠ 60)) = [] :=
      List.filter_eq_nil_iff.2 fun p hp => by
        simp [adjPairs_range'_delta t0 0 j p hp]
    have hY0 : (adjPairs ((List.range' (j + 1) (n - j)).map
        fun k : Nat => t0 + 60 * (k : Int))).filter
        (fun q => decide (q.2 - q.1 ≠ 60)) = [] :=
      List.filter_eq_nil_iff.2 fun p hp => by
        simp [adjPairs_range'_delta t0 (j + 1) (n - j) p hp]
    have hpos : (fun q : TS × TS => decide (q.2 - q.1 ≠ 60))
        (t0 + 60 * ((j - 1 : Nat) : Int), t0 + 60 * ((j + 1 : Nat) : Int)) = true := by
      refine decide_eq_true ?_
      show (t0 + 60 * ((j + 1 : Nat) : Int)) - (t0 + 60 * ((j - 1 : Nat) : Int)) ≠ 60
      rw [hjunc]
      norm_num
    have hfm : (if (t0 + 60 * ((j + 1 : Nat) : Int)) - (t0 + 60 * ((j - 1 : Nat) : Int)) = 120
        then some ((t0 + 60 * ((j - 1 : Nat) : Int)) + 60) else none)
        = some (t0 + 60 * (j : Int)) := by
      rw [if_pos hjunc]
      congr 1
      rw [hsub]
      ring
    rw [hX0, filter_cons_pos_explicit (fun q : TS × TS => decide (q.2 - q.1 ≠ 60))
      (t0 + 60 * ((j - 1 : Nat) : Int), t0 + 60 * ((j + 1 : Nat) : Int)) _ hpos,
      hY0, List.nil_append]
    simp only [List.filterMap_cons, hfm, List.filterMap_nil]
  -- assemble: keys of the final table are a permutation of the full grid
  have hgridsplit : hourGrid t0 n
      = ((List.range' 0 j).map fun k : Nat => t0 + 60 * (k : Int))
        ++ (t0 + 60 * (j : Int))
          :: ((List.range' (j + 1) (n - j)).map fun k : Nat => t0 + 60 * (k : Int)) := by
    rw [hourGrid, List.range_eq_range']
    have h := List.range'_append 0 j (n + 1 - j) 1
    rw [show (0 + 1 * j) = j by omega, show (n + 1 - j) + j = n + 1 by omega] at h
    rw [← h, List.map_append]
    congr 1
    rw [show n + 1 - j = (n - j) + 1 by omega, List.range'_succ, List.map_cons]
  have hperm : ((weatherFinal sources).map Prod.fst).Perm (hourGrid t0 n) := by
    rw [weatherFinal]
    refine ((List.perm_insertionSort wLe _).map Prod.fst).trans ?_
    rw [List.map_append, hkeys, hins, hourGridExcept_decomp t0 n j hjn, hgridsplit]
    refine (List.perm_append_singleton _ _).trans ?_
    exact List.perm_middle.symm
  have hsorted : ((weatherFinal sources).map Prod.fst).Pairwise (· ≤ ·) :=
    List.Pairwise.map Prod.fst (fun _ _ hab => hab)
      (List.sorted_insertionSort wLe _)
  have hgrid_lt := hourGrid_pairwise t0 n
  have heq : (weatherFinal sources).map Prod.fst = hourGrid t0 n :=
    List.eq_of_perm_of_sorted hperm hsorted (hgrid_lt.imp le_of_lt)
  exact ⟨heq, heq ▸ hgrid_lt⟩

/-- C7 witness: two overlapping sources cover hours 0, 2 and 3 of a four-hour
grid (hour 1 missing, with duplicated timestamps across sources); the output
holds exactly the four hours 0..3, strictly sorted. -/
theorem weather_full_grid_witness :
    (weatherFinal [[(0, ⟨1, 1, 1, 1, 1⟩), (120, ⟨2, 2, 2, 2, 2⟩)],
        [(120, ⟨9, 9, 9, 9, 9⟩), (180, ⟨3, 3, 3, 3, 3⟩)]]).map Prod.fst
      = hourGrid 0 3 :=
  (weather_full_grid [[(0, ⟨1, 1, 1, 1, 1⟩), (120, ⟨2, 2, 2, 2, 2⟩)],
      [(120, ⟨9, 9, 9, 9, 9⟩), (180, ⟨3, 3, 3, 3, 3⟩)]] 0 3 1
    (by decide) (by decide) (by decide) (by decide)).1

/-! ### C5: the consumption/tariff merge is an exact left join -/

/-- Deduplicating a list of keys by identity yields a duplicate-free list. -/
theorem dedupBy_id_nodup {α : Type} [DecidableEq α] (l : List α) :
    (dedupBy id l).Nodup := by
  have h := keys_dedupBy_nodup id l
  rwa [List.map_id] at h

/-- In a duplicate-free list, filtering by a predicate that `a` satisfies and
that pins down `a` yields exactly `[a]`. -/
theorem filter_eq_singleton_of_nodup {α : Type} (l : List α) (p : α → Bool)
    (a : α) (hnd : l.Nodup) (ha : a ∈ l) (hpa : p a = true)
    (huniq : ∀ b ∈ l, p b = true → b = a) : l.filter p = [a] := by
  induction l with
  | nil => exact absurd ha (List.not_mem_nil a)
  | cons y ys ih =>
      rcases List.nodup_cons.1 hnd with ⟨hy, hys⟩
      by_cases hpy : p y
      · have hya : y = a := huniq y (List.mem_cons_self y ys) hpy
        subst hya
        rw [List.filter_cons_of_pos hpy]
        have h0 : ys.filter p = [] :=
          List.filter_eq_nil_iff.2 fun b hb hpb =>
            hy ((huniq b (List.mem_cons_of_mem y hb) hpb) ▸ hb)
        rw [h0]
      · have hya : a ≠ y := fun he => hpy (he ▸ hpa)
        have ha' : a ∈ ys := by
          rcases List.mem_cons.1 ha with he | hm
          · exact absurd he hya
          · exact hm
        rw [List.filter_cons_of_neg (by simpa using hpy)]
        exact ih hys ha' fun b hb => huniq b (List.mem_cons_of_mem y hb)

/-- A filtered flat map over a duplicate-free list collapses to the single
contributing block. -/
theorem filter_flatMap_single {α β : Type} (L : List α) (g : α → List β)
    (p : β → Bool) (a : α) (ha : a ∈ L) (hnd : L.Nodup)
    (hvanish : ∀ b ∈ L, b ≠ a → (g b).filter p = [])
    (hself : (g a).filter p = g a) :
    (L.flatMap g).filter p = g a := by
  obtain ⟨A, B, rfl⟩ := List.append_of_mem ha
  rcases List.nodup_append.1 hnd with ⟨hA, hcons, hdisj⟩
  have haA : a ∉ A := fun hx => (hdisj hx) (List.mem_cons_self a B)
  have haB : a ∉ B := (List.nodup_cons.1 hcons).1
  rw [List.flatMap_append, List.flatMap_cons, List.filter_append,
    List.filter_append, hself]
  have hA0 : (A.flatMap g).filter p = [] := by
    rw [List.filter_flatMap]
    exact List.flatMap_eq_nil_iff.2 fun b hb =>
      hvanish b (List.mem_append_left _ hb) fun he => haA (he ▸ hb)
  have hB0 : (B.flatMap g).filter p = [] := by
    rw [List.filter_flatMap]
    exact List.flatMap_eq_nil_iff.2 fun b hb =>
      hvanish b (List.mem_append_right _ (List.mem_cons_of_mem a hb))
        fun he => haB (he ▸ hb)
  rw [hA0, hB0, List.nil_append, List.append_nil]

/-- The hourly consumption aggregate has one row per (hour, household) key. -/
theorem consumptionHourly_nodup (ids : List String) (rows : List WideRow) :
    (consumptionHourly ids rows).Nodup := by
  rw [consumptionHourly]
  refine List.Nodup.map ?_ (dedupBy_id_nodup _)
  intro k k' he
  simp only [Prod.mk.injEq] at he
  exact Prod.ext he.1 he.2.1

/-- The hourly tariff aggregate has one row per hour key. -/
theorem tariffHourly_nodup (tariff : List TariffRow) :
    (tariffHourly tariff).Nodup := by
  rw [tariffHourly]
  refine List.Nodup.map ?_ (dedupBy_id_nodup _)
  intro x x' he
  simp only [Prod.mk.injEq] at he
  exact he.1

/-- C5: the consumption/tariff merge is an exact left join on the hour: every
(hour, household) pair of the hourly consumption aggregates yields exactly one
row of the sorted merged output, carrying that pair's summed consumption and,
as tariff, the mean price of that hour's bucketed tariff readings when the
hour occurs among them and null otherwise. -/
theorem left_join_exact (ids : List String) (rows : List WideRow)
    (tariff : List TariffRow) (hr : TS) (h : String) (c : ℚ)
    (hmem : (hr, h, c) ∈ consumptionHourly ids rows) :
    (mergedData ids rows tariff).filter (fun r => decide (r.1 = hr ∧ r.2.1 = h))
      = [(hr, h, c,
          if hr ∈ (tariffWithHour tariff).map Prod.fst then
            some (meanQ (((tariffWithHour tariff).filter fun r =>
              decide (r.1 = hr)).map Prod.snd))
          else none)] := by
  have hperm := (List.perm_insertionSort mergedLe
      (leftJoin (consumptionHourly ids rows) (tariffHourly tariff))).filter
    fun r : MRow => decide (r.1 = hr ∧ r.2.1 = h)
  rw [mergedData]
  suffices hj : (leftJoin (consumptionHourly ids rows) (tariffHourly tariff)).filter
      (fun r : MRow => decide (r.1 = hr ∧ r.2.1 = h))
      = [(hr, h, c,
          if hr ∈ (tariffWithHour tariff).map Prod.fst then
            some (meanQ (((tariffWithHour tariff).filter fun r =>
              decide (r.1 = hr)).map Prod.snd))
          else none)] by
    rw [hj] at hperm
    exact List.perm_singleton.1 hperm
  have hvanish : ∀ b ∈ consumptionHourly ids rows, b ≠ (hr, h, c) →
      ((match (tariffHourly tariff).filter (fun r : TS × ℚ => decide (r.1 = b.1)) with
        | [] => [(b.1, b.2.1, b.2.2, none)]
        | ms => ms.map fun m : TS × ℚ => (b.1, b.2.1, b.2.2, some m.2)).filter
          fun r : MRow => decide (r.1 = hr ∧ r.2.1 = h)) = [] := by
    intro b hb hne
    have hpair : ¬(b.1 = hr ∧ b.2.1 = h) := by
      rintro ⟨h1, h2⟩
      apply hne
      -- b and (hr, h, c) are rows of the aggregate sharing their key
      rw [consumptionHourly] at hb hmem
      obtain ⟨k, hk, rfl⟩ := List.mem_map.1 hb
      obtain ⟨k0, hk0, heq0⟩ := List.mem_map.1 hmem
      have e1 : k0.1 = hr := congrArg Prod.fst heq0
      have e2 : k0.2 = h := congrArg (fun x : TS × String × ℚ => x.2.1) heq0
      have ek : k = k0 := Prod.ext (h1.trans e1.symm) (h2.trans e2.symm)
      rw [ek]
      exact heq0
    apply List.filter_eq_nil_iff.2
    intro r hrr
    rcases hms : (tariffHourly tariff).filter fun r => decide (r.1 = b.1) with _ | ⟨m, ms'⟩
    · rw [hms] at hrr
      rcases List.mem_singleton.1 hrr with rfl
      simpa using hpair
    · rw [hms] at hrr
      obtain ⟨m', _, rfl⟩ := List.mem_map.1 hrr
      simpa using hpair
  have hself : ((match (tariffHourly tariff).filter (fun r : TS × ℚ => decide (r.1 = (hr, h, c).1)) with
      | [] => [((hr, h, c).1, (hr, h, c).2.1, (hr, h, c).2.2, none)]
      | ms => ms.map fun m : TS × ℚ => ((hr, h, c).1, (hr, h, c).2.1, (hr, h, c).2.2, some m.2)).filter
        fun r : MRow => decide (r.1 = hr ∧ r.2.1 = h))
      = (match (tariffHourly tariff).filter (fun r : TS × ℚ => decide (r.1 = (hr, h, c).1)) with
        | [] => [((hr, h, c).1, (hr, h, c).2.1, (hr, h, c).2.2, none)]
        | ms => ms.map fun m : TS × ℚ => ((hr, h, c).1, (hr, h, c).2.1, (hr, h, c).2.2, some m.2)) := by
    apply List.filter_eq_self.2
    intro r hrr
    rcases hms : (tariffHourly tariff).filter fun r => decide (r.1 = hr) with _ | ⟨m, ms'⟩
    · rw [show ((hr, h, c).1 : TS) = hr from rfl, hms] at hrr
      rcases List.mem_singleton.1 hrr with rfl
      simp
    · rw [show ((hr, h, c).1 : TS) = hr from rfl, hms] at hrr
      obtain ⟨m', _, rfl⟩ := List.mem_map.1 hrr
      simp
  rw [leftJoin, filter_flatMap_single (consumptionHourly ids rows) _ _ (hr, h, c)
    hmem (consumptionHourly_nodup ids rows) hvanish hself]
  -- finally evaluate the one block
  by_cases hhr : hr ∈ (tariffWithHour tariff).map Prod.fst
  · rw [if_pos hhr]
    have hk1 : hr ∈ dedupBy id ((tariffWithHour tariff).map Prod.fst) :=
      (mem_dedupBy_id _ _).2 hhr
    have htar : (hr, meanQ (((tariffWithHour tariff).filter fun r =>
        decide (r.1 = hr)).map Prod.snd)) ∈ tariffHourly tariff := by
      rw [tariffHourly]
      exact List.mem_map_of_mem _ hk1
    have hmsl : (tariffHourly tariff).filter (fun r => decide (r.1 = hr))
        = [(hr, meanQ (((tariffWithHour tariff).filter fun r =>
            decide (r.1 = hr)).map Prod.snd))] := by
      refine filter_eq_singleton_of_nodup _ _ _ (tariffHourly_nodup tariff) htar
        (by simp) ?_
      intro b hb hpb
      rw [tariffHourly] at hb
      obtain ⟨x, hx, rfl⟩ := List.mem_map.1 hb
      simp only [decide_eq_true_eq] at hpb
      rw [hpb]
    rw [show ((hr, h, c).1 : TS) = hr from rfl, hmsl]
    rfl
  · rw [if_neg hhr]
    have hmsl : (tariffHourly tariff).filter (fun r => decide (r.1 = hr)) = [] := by
      apply List.filter_eq_nil_iff.2
      intro m hm
      rw [tariffHourly] at hm
      obtain ⟨x, hx, rfl⟩ := List.mem_map.1 hm
      simp only [decide_eq_true_eq]
      intro he
      exact hhr (he ▸ (mem_dedupBy_id _ _).1 hx)
    rw [show ((hr, h, c).1 : TS) = hr from rfl, hmsl]

/-- C5 witness: the single aggregated pair (hour 2013-06-01 01:00, MAC001)
appears exactly once in the merged output, with the mean tariff 15 of the two
half-hourly prices 10 and 20 bucketed into that hour. -/
theorem left_join_exact_witness :
    (mergedData ["MAC001"] [(217470, [some (2/10)]), (217500, [some (3/10)])]
        [(217480, 10), (217490, 20)]).filter
      (fun r => decide (r.1 = 217500 ∧ r.2.1 = "MAC001"))
      = [(217500, "MAC001", (1 : ℚ)/2,
          if (217500 : TS) ∈ (tariffWithHour [(217480, 10), (217490, 20)]).map Prod.fst then
            some (meanQ (((tariffWithHour [(217480, 10), (217490, 20)]).filter fun r =>
              decide (r.1 = 217500)).map Prod.snd))
          else none)] :=
  left_join_exact ["MAC001"] [(217470, [some (2/10)]), (217500, [some (3/10)])]
    [(217480, 10), (217490, 20)] 217500 "MAC001" ((1 : ℚ)/2) (by decide)

/-! ### C3: the 5% missingness cutoff bounds every output -/

/-- Imputation also preserves the household column alone. -/
theorem consumptionImputed_map_household (ids : List String) (rows : List WideRow) :
    (consumptionImputed ids rows).map (fun r => r.2.1)
      = (meltedFiltered ids rows).map fun r => r.2.1 := by
  have hp := congrArg (List.map Prod.snd) (consumptionImputed_map_pair ids rows)
  rw [List.map_map, List.map_map] at hp
  exact hp

/-- A household appears among the hourly aggregates exactly when it appears in
the imputed table. -/
theorem household_hourly_iff (ids : List String) (rows : List WideRow) (h : String) :
    h ∈ (consumptionHourly ids rows).map (fun r => r.2.1)
      ↔ h ∈ (consumptionImputed ids rows).map fun r => r.2.1 := by
  constructor
  · intro hm
    obtain ⟨row, hrow, hrh⟩ := List.mem_map.1 hm
    rw [consumptionHourly] at hrow
    obtain ⟨k, hk, rfl⟩ := List.mem_map.1 hrow
    have hk' : k ∈ (consumptionWithHour ids rows).map fun r => (r.1, r.2.1) :=
      (mem_dedupBy_id _ _).1 hk
    obtain ⟨r, hr, hkr⟩ := List.mem_map.1 hk'
    rw [consumptionWithHour] at hr
    obtain ⟨r0, hr0, rfl⟩ := List.mem_map.1 hr
    refine List.mem_map.2 ⟨r0, hr0, ?_⟩
    exact (congrArg Prod.snd hkr).trans hrh
  · intro hm
    obtain ⟨r0, hr0, hrh⟩ := List.mem_map.1 hm
    have hw : (floorHour (r0.1 + 30), r0.2.1, r0.2.2) ∈ consumptionWithHour ids rows := by
      rw [consumptionWithHour]
      exact List.mem_map_of_mem _ hr0
    have hk : (floorHour (r0.1 + 30), r0.2.1)
        ∈ (consumptionWithHour ids rows).map fun r => (r.1, r.2.1) :=
      List.mem_map.2 ⟨_, hw, rfl⟩
    have hk' := (mem_dedupBy_id _ _).2 hk
    rw [consumptionHourly]
    exact List.mem_map.2 ⟨_, List.mem_map_of_mem _ hk', hrh⟩

/-- Every left row contributes at least one joined row with its household. -/
theorem household_mem_leftJoin (left : List (TS × String × ℚ)) (right : List (TS × ℚ))
    (l : TS × String × ℚ) (hl : l ∈ left) :
    l.2.1 ∈ (leftJoin left right).map fun r => r.2.1 := by
  apply List.mem_map.2
  rcases hms : right.filter fun r => decide (r.1 = l.1) with _ | ⟨m, ms'⟩
  · exact ⟨(l.1, l.2.1, l.2.2, none),
      List.mem_flatMap.2 ⟨l, hl, by rw [hms]; exact List.mem_cons_self _ _⟩, rfl⟩
  · exact ⟨(l.1, l.2.1, l.2.2, some m.2),
      List.mem_flatMap.2 ⟨l, hl,
        by rw [hms]; exact List.mem_map_of_mem _ (List.mem_cons_self m ms')⟩, rfl⟩

/-- Conversely, every joined row's household comes from a left row. -/
theorem household_mem_leftJoin_imp (left : List (TS × String × ℚ))
    (right : List (TS × ℚ)) (h : String)
    (hm : h ∈ (leftJoin left right).map fun r => r.2.1) :
    h ∈ left.map fun r => r.2.1 := by
  obtain ⟨r, hr, rfl⟩ := List.mem_map.1 hm
  obtain ⟨l, hl, hrl⟩ := List.mem_flatMap.1 hr
  have hlh : r.2.1 = l.2.1 := by
    rcases hms : right.filter fun r => decide (r.1 = l.1) with _ | ⟨m, ms'⟩
    · rw [hms] at hrl
      rcases List.mem_singleton.1 hrl with rfl
      rfl
    · rw [hms] at hrl
      obtain ⟨m', _, rfl⟩ := List.mem_map.1 hrl
      rfl
  exact List.mem_map.2 ⟨l, hl, hlh.symm⟩

/-- A household appears in the sorted merged output exactly when it appears in
the hourly aggregates: the left join preserves households in both
directions. -/
theorem household_merged_iff (ids : List String) (rows : List WideRow)
    (tariff : List TariffRow) (h : String) :
    h ∈ (mergedData ids rows tariff).map (fun r => r.2.1)
      ↔ h ∈ (consumptionHourly ids rows).map fun r => r.2.1 := by
  rw [mergedData]
  have hperm := (List.perm_insertionSort mergedLe
    (leftJoin (consumptionHourly ids rows) (tariffHourly tariff))).map
    fun r : MRow => r.2.1
  rw [hperm.mem_iff]
  constructor
  · exact household_mem_leftJoin_imp _ _ h
  · intro hm
    obtain ⟨l, hl, hlh⟩ := List.mem_map.1 hm
    exact hlh ▸ household_mem_leftJoin _ _ l hl

/-- C3: a household of the melted 2013 table whose missing percentage exceeds
5 appears in no output table (filtered, imputed, hourly, merged); one whose
percentage is at most 5 is retained, through to the merged output. -/
theorem household_cutoff (ids : List String) (rows : List WideRow) (h : String)
    (hmem : h ∈ householdIds (consumptionMelted ids rows)) :
    (5 < pctMissing (consumptionMelted ids rows) h →
        h ∉ (meltedFiltered ids rows).map (fun r => r.2.1)
        ∧ h ∉ (consumptionImputed ids rows).map (fun r => r.2.1)
        ∧ h ∉ (consumptionHourly ids rows).map (fun r => r.2.1)
        ∧ ∀ tariff, h ∉ (mergedData ids rows tariff).map fun r => r.2.1)
    ∧ (pctMissing (consumptionMelted ids rows) h ≤ 5 →
        h ∈ (meltedFiltered ids rows).map (fun r => r.2.1)
        ∧ ∀ tariff, h ∈ (mergedData ids rows tariff).map fun r => r.2.1) := by
  constructor
  · intro hgt
    have hrem : h ∈ householdsToRemove (consumptionMelted ids rows) :=
      List.mem_filter.2 ⟨hmem, by simp [hgt]⟩
    have h1 : h ∉ (meltedFiltered ids rows).map fun r => r.2.1 := by
      intro hm
      obtain ⟨r, hr, hrh⟩ := List.mem_map.1 hm
      have h2 := (List.mem_filter.1 hr).2
      rw [decide_eq_true_eq, hrh] at h2
      exact h2 hrem
    have h2 : h ∉ (consumptionImputed ids rows).map fun r => r.2.1 := by
      rw [consumptionImputed_map_household]
      exact h1
    have h3 : h ∉ (consumptionHourly ids rows).map fun r => r.2.1 := fun hm =>
      h2 ((household_hourly_iff ids rows h).1 hm)
    exact ⟨h1, h2, h3, fun tariff hm =>
      h3 ((household_merged_iff ids rows tariff h).1 hm)⟩
  · intro hle
    have hhm : h ∈ (consumptionMelted ids rows).map fun r => r.2.1 :=
      (mem_dedupBy_id _ _).1 hmem
    obtain ⟨r, hr, hrh⟩ := List.mem_map.1 hhm
    have hnr : h ∉ householdsToRemove (consumptionMelted ids rows) := by
      intro hcon
      have hgt := (List.mem_filter.1 hcon).2
      rw [decide_eq_true_eq] at hgt
      exact absurd hle (not_le.2 hgt)
    have h1 : h ∈ (meltedFiltered ids rows).map fun r => r.2.1 :=
      List.mem_map.2 ⟨r, List.mem_filter.2 ⟨hr, by simp [hrh, hnr]⟩, hrh⟩
    refine ⟨h1, fun tariff => ?_⟩
    apply (household_merged_iff ids rows tariff h).2
    apply (household_hourly_iff ids rows h).2
    rw [consumptionImputed_map_household]
    exact h1

/-- C3 witness: the household with 25% missing readings is absent from the
merged output while the complete household is present. -/
theorem household_cutoff_witness :
    "MAC002" ∉ (mergedData ["MAC001", "MAC002"] cutoffRows []).map (fun r => r.2.1)
    ∧ "MAC001" ∈ (mergedData ["MAC001", "MAC002"] cutoffRows []).map fun r => r.2.1 :=
  ⟨((household_cutoff ["MAC001", "MAC002"] cutoffRows "MAC002" (by decide)).1
      (by decide)).2.2.2 [],
    ((household_cutoff ["MAC001", "MAC002"] cutoffRows "MAC001" (by decide)).2
      (by decide)).2 []⟩



/-! ### C2: duplicate removal under the unstable sort contract -/

/-- In a list with duplicate-free keys, two members sharing a key are the
same row. -/
theorem eq_of_mem_keys_nodup {α κ : Type} (key : α → κ) (l : List α)
    (hnd : (l.map key).Nodup) (b r : α) (hb : b ∈ l) (hr : r ∈ l)
    (hk : key b = key r) : b = r := by
  induction l with
  | nil => exact absurd hb (List.not_mem_nil b)
  | cons x xs ih =>
      rw [List.map_cons, List.nodup_cons] at hnd
      rcases List.mem_cons.1 hb with rfl | hb' <;> rcases List.mem_cons.1 hr with rfl | hr'
      · rfl
      · exact absurd (by rw [hk]; exact List.mem_map_of_mem key hr') hnd.1
      · exact absurd (by rw [← hk]; exact List.mem_map_of_mem key hb') hnd.1
      · exact ih hnd.2 hb' hr'

/-- C2 counterexample: the first-occurrence claim fails on what the code
guarantees.  Two rows share timestamp 10; the rearrangement that swaps them is
also a legal `sort_index()` output (it is a timestamp-sorted permutation of
the concatenation, and pandas' default quicksort leaves the order of equal
timestamps unspecified), and `duplicated(keep='first')` then keeps the second
source occurrence, whose measurement values differ from the first's. -/
theorem weather_dedup_tie_order_cex :
    SortIndexResult
      (weatherConcat [[(10, ⟨1, 2, 3, 4, 5⟩), (10, ⟨6, 7, 8, 9, 0⟩), (70, ⟨1, 1, 1, 1, 1⟩)]])
      [(10, ⟨6, 7, 8, 9, 0⟩), (10, ⟨1, 2, 3, 4, 5⟩), (70, ⟨1, 1, 1, 1, 1⟩)]
    ∧ (weatherConcat [[(10, ⟨1, 2, 3, 4, 5⟩), (10, ⟨6, 7, 8, 9, 0⟩),
        (70, ⟨1, 1, 1, 1, 1⟩)]]).find? (fun y => decide (y.1 = 10))
      = some (10, ⟨1, 2, 3, 4, 5⟩)
    ∧ (dedupBy Prod.fst ([(10, ⟨6, 7, 8, 9, 0⟩), (10, ⟨1, 2, 3, 4, 5⟩),
        (70, ⟨1, 1, 1, 1, 1⟩)] : List WRow)).find? (fun y => decide (y.1 = 10))
      = some (10, ⟨6, 7, 8, 9, 0⟩)
    ∧ ((10, ⟨6, 7, 8, 9, 0⟩) : WRow) ≠ (10, ⟨1, 2, 3, 4, 5⟩) :=
  ⟨⟨List.Perm.swap _ _ _, by decide⟩, by decide, by decide, by decide⟩

/-- C2 (amended): for every admissible `sort_index()` output, the duplicate
removal keeps exactly one row per timestamp occurring in the concatenated
sources, and that row is one of the source rows carrying the timestamp — its
measurement values come from some duplicate, though not necessarily from the
first occurrence in concatenation order, since the unstable sort leaves the
order of equal timestamps unspecified. -/
theorem weather_dedup_keeps_some_occurrence (sources : List (List WRow))
    (out : List WRow) (hout : SortIndexResult (weatherConcat sources) out)
    (t : TS) (hocc : t ∈ (weatherConcat sources).map Prod.fst) :
    ∃ r : WRow, (dedupBy Prod.fst out).find? (fun y => decide (y.1 = t)) = some r
      ∧ r ∈ weatherConcat sources ∧ r.1 = t
      ∧ (dedupBy Prod.fst out).filter (fun y => decide (y.1 = t)) = [r] := by
  obtain ⟨hperm, _⟩ := hout
  have hocc' : t ∈ out.map Prod.fst := ((hperm.map Prod.fst).mem_iff).2 hocc
  obtain ⟨r0, hr0mem, hr0key⟩ := List.mem_map.1 hocc'
  obtain ⟨r, hr⟩ : ∃ r, out.find? (fun y => decide (y.1 = t)) = some r := by
    cases hf : out.find? (fun y => decide (y.1 = t)) with
    | some r => exact ⟨r, rfl⟩
    | none =>
        have hnone := List.find?_eq_none.1 hf r0 hr0mem
        simp [hr0key] at hnone
  have hrd : (dedupBy Prod.fst out).find? (fun y => decide (y.1 = t)) = some r := by
    rw [find?_key_dedupBy]
    exact hr
  have hrkey : r.1 = t := by
    have hp := List.find?_some hr
    simpa using hp
  have hrmem : r ∈ weatherConcat sources :=
    hperm.mem_iff.1 (List.mem_of_find?_eq_some hr)
  have hrded : r ∈ dedupBy Prod.fst out := List.mem_of_find?_eq_some hrd
  have hknd : ((dedupBy Prod.fst out).map Prod.fst).Nodup :=
    keys_dedupBy_nodup Prod.fst out
  refine ⟨r, hrd, hrmem, hrkey, ?_⟩
  refine filter_eq_singleton_of_nodup _ _ _ (hknd.of_map Prod.fst) hrded
    (by simp [hrkey]) ?_
  intro b hb hpb
  simp only [decide_eq_true_eq] at hpb
  exact eq_of_mem_keys_nodup Prod.fst _ hknd b r hb hrded (by rw [hpb, hrkey])

/-- C2 (amended) witness: at the counterexample's swapped-but-sorted output,
duplicate removal keeps exactly one row at timestamp 10, and it is one of the
two source rows carrying that timestamp. -/
theorem weather_dedup_keeps_some_occurrence_witness :
    ∃ r : WRow, (dedupBy Prod.fst ([(10, ⟨6, 7, 8, 9, 0⟩), (10, ⟨1, 2, 3, 4, 5⟩),
        (70, ⟨1, 1, 1, 1, 1⟩)] : List WRow)).find? (fun y => decide (y.1 = 10)) = some r
      ∧ r ∈ weatherConcat [[(10, ⟨1, 2, 3, 4, 5⟩), (10, ⟨6, 7, 8, 9, 0⟩),
          (70, ⟨1, 1, 1, 1, 1⟩)]]
      ∧ r.1 = 10
      ∧ (dedupBy Prod.fst ([(10, ⟨6, 7, 8, 9, 0⟩), (10, ⟨1, 2, 3, 4, 5⟩),
          (70, ⟨1, 1, 1, 1, 1⟩)] : List WRow)).filter (fun y => decide (y.1 = 10)) = [r] :=
  weather_dedup_keeps_some_occurrence
    [[(10, ⟨1, 2, 3, 4, 5⟩), (10, ⟨6, 7, 8, 9, 0⟩), (70, ⟨1, 1, 1, 1, 1⟩)]]
    [(10, ⟨6, 7, 8, 9, 0⟩), (10, ⟨1, 2, 3, 4, 5⟩), (70, ⟨1, 1, 1, 1, 1⟩)]
    ⟨List.Perm.swap _ _ _, by decide⟩ 10 (by decide)


end DataMerging
